import Mathlib

/-!
Shallow embedding of the metrics engine of
`src/examples/world4utau/examples/quality_comparison.py` (class
`AudioQualityAnalyzer`), together with theorems settling the frozen claims
about its specification.

Sample buffers are modelled as `List ℝ` (idealizing IEEE doubles as real
numbers).  Python `float("inf")` / `-float("inf")` sentinel returns are
modelled by the explicit sum type `FloatOut`.  Where a numpy routine would
raise on an empty buffer (`np.max([])`, `np.fft.fft([])`) or return NaN
(`np.mean([])`), the theorems carry a nonemptiness hypothesis, matching the
failure-semantics clause of the spec (callers must guarantee buffers contain
at least one sample).
-/

namespace QualityComparison

/-- Result of a metric that may be an IEEE infinity sentinel or a finite
real value. -/
inductive FloatOut where
  | posInf
  | negInf
  | val (x : ℝ)

/-- `np.mean(xs**2)`: the sum of the squared samples divided by the length. -/
noncomputable def meanSq (xs : List ℝ) : ℝ :=
  ((xs.map fun x => x ^ 2).sum) / xs.length

/-- `np.max` on a nonempty list of reals (0 on the empty list, which numpy
would instead reject). -/
noncomputable def listMax : List ℝ → ℝ
  | [] => 0
  | x :: xs => xs.foldl max x

/-- `np.min` on a nonempty list of reals (0 on the empty list, which numpy
would instead reject). -/
noncomputable def listMin : List ℝ → ℝ
  | [] => 0
  | x :: xs => xs.foldl min x

/-- The `AudioQualityAnalyzer` class: its only field is the sample-rate
configuration set in `__init__`. -/
structure AudioQualityAnalyzer where
  sample_rate : ℕ

/-- `AudioQualityAnalyzer.__init__` always sets `self.sample_rate = 44100`. -/
def theAnalyzer : AudioQualityAnalyzer := ⟨44100⟩

/-- `calculate_snr` (lines 50-59): mean-square power of each buffer computed
independently; `float("inf")` when the noise power is zero, otherwise
`10 * np.log10(signal_power / noise_power)`.  The method reads nothing from
`self` and performs no shape check on its arguments. -/
noncomputable def AudioQualityAnalyzer.calculate_snr
    (_self : AudioQualityAnalyzer) (signal_audio noise_audio : List ℝ) :
    FloatOut :=
  let signal_power := meanSq signal_audio
  let noise_power := meanSq noise_audio
  if noise_power = 0 then FloatOut.posInf
  else FloatOut.val (10 * Real.logb 10 (signal_power / noise_power))

/-- `calculate_rms` (lines 110-112): `np.sqrt(np.mean(audio**2))`. -/
noncomputable def AudioQualityAnalyzer.calculate_rms
    (_self : AudioQualityAnalyzer) (audio : List ℝ) : ℝ :=
  Real.sqrt (meanSq audio)

/-- The peak `np.max(np.abs(audio))` used by `calculate_peak_level`. -/
noncomputable def peakAbs (audio : List ℝ) : ℝ :=
  listMax (audio.map fun x => |x|)

/-- `calculate_peak_level` (lines 114-119): `-float("inf")` when the peak
absolute sample is zero, otherwise `20 * np.log10(peak)` (dBFS). -/
noncomputable def AudioQualityAnalyzer.calculate_peak_level
    (_self : AudioQualityAnalyzer) (audio : List ℝ) : FloatOut :=
  let peak := peakAbs audio
  if peak = 0 then FloatOut.negInf
  else FloatOut.val (20 * Real.logb 10 peak)

/-- Mean of squared samples, written independently of the embedding's
`meanSq` (indexed finite sum rather than a mapped list sum), following the
wording of the spec. -/
noncomputable def specMeanSquare (xs : List ℝ) : ℝ :=
  (∑ i ∈ Finset.range xs.length, xs.getD i 0 ^ 2) / xs.length

/-! ### Basic lemmas about the helpers -/

theorem foldl_max_le_mem :
    ∀ (xs : List ℝ) (a x : ℝ), x ∈ a :: xs → x ≤ xs.foldl max a := by
  intro xs
  induction xs with
  | nil =>
      intro a x hx
      rcases List.mem_singleton.mp hx with rfl
      exact le_refl x
  | cons y ys ih =>
      intro a x hx
      have step : ∀ z, z ∈ (max a y) :: ys → z ≤ ys.foldl max (max a y) := ih (max a y)
      rcases List.mem_cons.mp hx with rfl | hx'
      · exact le_trans (le_max_left x y) (step _ (List.mem_cons_self _ _))
      · rcases List.mem_cons.mp hx' with rfl | hx''
        · exact le_trans (le_max_right a x) (step _ (List.mem_cons_self _ _))
        · exact step x (List.mem_cons_of_mem _ hx'')

theorem foldl_max_mem :
    ∀ (xs : List ℝ) (a : ℝ), xs.foldl max a ∈ a :: xs := by
  intro xs
  induction xs with
  | nil => intro a; exact List.mem_singleton.mpr rfl
  | cons y ys ih =>
      intro a
      have h := ih (max a y)
      rcases List.mem_cons.mp h with h' | h'
      · rcases max_choice a y with hm | hm
        · rw [List.foldl_cons, h', hm]; exact List.mem_cons_self _ _
        · rw [List.foldl_cons, h', hm]
          exact List.mem_cons_of_mem _ (List.mem_cons_self _ _)
      · exact List.mem_cons_of_mem _ (List.mem_cons_of_mem _ h')

theorem listMax_mem (l : List ℝ) (h : l ≠ []) : listMax l ∈ l := by
  cases l with
  | nil => exact absurd rfl h
  | cons x xs => exact foldl_max_mem xs x

theorem le_listMax (l : List ℝ) (x : ℝ) (hx : x ∈ l) : x ≤ listMax l := by
  cases l with
  | nil => cases hx
  | cons y ys => exact foldl_max_le_mem ys y x hx

theorem foldl_min_mem_le :
    ∀ (xs : List ℝ) (a x : ℝ), x ∈ a :: xs → xs.foldl min a ≤ x := by
  intro xs
  induction xs with
  | nil =>
      intro a x hx
      rcases List.mem_singleton.mp hx with rfl
      exact le_refl x
  | cons y ys ih =>
      intro a x hx
      have step : ∀ z, z ∈ (min a y) :: ys → ys.foldl min (min a y) ≤ z := ih (min a y)
      rcases List.mem_cons.mp hx with rfl | hx'
      · exact le_trans (step _ (List.mem_cons_self _ _)) (min_le_left x y)
      · rcases List.mem_cons.mp hx' with rfl | hx''
        · exact le_trans (step _ (List.mem_cons_self _ _)) (min_le_right a x)
        · exact step x (List.mem_cons_of_mem _ hx'')

theorem foldl_min_mem :
    ∀ (xs : List ℝ) (a : ℝ), xs.foldl min a ∈ a :: xs := by
  intro xs
  induction xs with
  | nil => intro a; exact List.mem_singleton.mpr rfl
  | cons y ys ih =>
      intro a
      have h := ih (min a y)
      rcases List.mem_cons.mp h with h' | h'
      · rcases min_choice a y with hm | hm
        · rw [List.foldl_cons, h', hm]; exact List.mem_cons_self _ _
        · rw [List.foldl_cons, h', hm]
          exact List.mem_cons_of_mem _ (List.mem_cons_self _ _)
      · exact List.mem_cons_of_mem _ (List.mem_cons_of_mem _ h')

theorem listMin_mem (l : List ℝ) (h : l ≠ []) : listMin l ∈ l := by
  cases l with
  | nil => exact absurd rfl h
  | cons x xs => exact foldl_min_mem xs x

theorem listMin_le (l : List ℝ) (x : ℝ) (hx : x ∈ l) : listMin l ≤ x := by
  cases l with
  | nil => cases hx
  | cons y ys => exact foldl_min_mem_le ys y x hx

theorem sum_map_range (n : ℕ) (f : ℕ → ℝ) :
    ((List.range n).map f).sum = ∑ k ∈ Finset.range n, f k := by
  induction n with
  | zero => simp
  | succ m ih => rw [List.range_succ, List.map_append, List.sum_append,
      Finset.sum_range_succ, ih]; simp

theorem meanSq_eq_specMeanSquare (xs : List ℝ) : meanSq xs = specMeanSquare xs := by
  unfold meanSq specMeanSquare
  congr 1
  have : xs.map (fun x => x ^ 2) = (List.range xs.length).map (fun i => xs.getD i 0 ^ 2) := by
    apply List.ext_getElem
    · simp
    · intro i h1 h2
      simp only [List.getElem_map, List.getElem_range]
      rw [List.getD_eq_getElem]
  rw [this, sum_map_range]

theorem map_sq_sum_nonneg (xs : List ℝ) : 0 ≤ ((xs.map fun x => x ^ 2).sum) := by
  apply List.sum_nonneg
  intro y hy
  rcases List.mem_map.mp hy with ⟨x, _, rfl⟩
  exact sq_nonneg x

theorem map_sq_sum_eq_zero_iff (xs : List ℝ) :
    ((xs.map fun x => x ^ 2).sum) = 0 ↔ ∀ x ∈ xs, x = 0 := by
  induction xs with
  | nil => simp
  | cons y ys ih =>
      simp only [List.map_cons, List.sum_cons, List.mem_cons]
      constructor
      · intro h
        have h1 : 0 ≤ y ^ 2 := sq_nonneg y
        have h2 : 0 ≤ ((ys.map fun x => x ^ 2).sum) := map_sq_sum_nonneg ys
        have hy2 : y ^ 2 = 0 := by linarith
        have hy0 : y = 0 := by
          have := pow_eq_zero_iff (n := 2) (by norm_num) |>.mp hy2
          exact this
        refine fun x hx => ?_
        rcases hx with rfl | hx'
        · exact hy0
        · exact (ih.mp (by linarith)) x hx'
      · intro h
        have hy0 : y = 0 := h y (Or.inl rfl)
        have hrest : ((ys.map fun x => x ^ 2).sum) = 0 :=
          ih.mpr fun x hx => h x (Or.inr hx)
        rw [hy0, hrest]; norm_num

theorem meanSq_nonneg (xs : List ℝ) : 0 ≤ meanSq xs := by
  unfold meanSq
  exact div_nonneg (map_sq_sum_nonneg xs) (Nat.cast_nonneg _)

theorem meanSq_eq_zero_iff (xs : List ℝ) (h : xs ≠ []) :
    meanSq xs = 0 ↔ ∀ x ∈ xs, x = 0 := by
  unfold meanSq
  have hn : (0 : ℝ) < xs.length := by
    have := List.length_pos.mpr h
    exact_mod_cast this
  rw [div_eq_zero_iff]
  constructor
  · intro hc
    rcases hc with hc | hc
    · exact (map_sq_sum_eq_zero_iff xs).mp hc
    · exact absurd hc (ne_of_gt hn)
  · intro hall
    exact Or.inl ((map_sq_sum_eq_zero_iff xs).mpr hall)

/-! ### Dynamic range -/

/-- Python `range(0, stop, step)` for a positive `step`; a non-positive stop
(which truncated ℕ subtraction sends to 0 at the call site) gives the empty
list, exactly as in Python. -/
def rangeStep (stop step : ℕ) : List ℕ :=
  (List.range ((stop + step - 1) / step)).map fun k => k * step

/-- `int(0.1 * self.sample_rate)` (line 124).  For the only rate the class
ever constructs (44100), `0.1 * 44100` is `4410.0000000000005` as a double,
so truncation yields exactly `sample_rate / 10 = 4410`. -/
def AudioQualityAnalyzer.window_size (self : AudioQualityAnalyzer) : ℕ :=
  self.sample_rate / 10

/-- `calculate_dynamic_range` (lines 121-136): windows of `window_size`
samples starting at `i` in `range(0, len(audio) - window_size, window_size)`;
each window with positive RMS contributes `20 * np.log10(rms)`; the result is
`np.max - np.min` of those dB values, or 0 when fewer than two exist. -/
noncomputable def AudioQualityAnalyzer.calculate_dynamic_range
    (self : AudioQualityAnalyzer) (audio : List ℝ) : ℝ :=
  let w := self.window_size
  let rms_values :=
    (((rangeStep (audio.length - w) w).map fun i =>
        self.calculate_rms ((audio.drop i).take w)).filter fun r =>
      decide (0 < r)).map fun r => 20 * Real.logb 10 r
  if rms_values.length < 2 then 0 else listMax rms_values - listMin rms_values

/-- The dynamic-range computation exactly as the spec words it: the buffer is
partitioned into non-overlapping full windows of `window_size` samples, every
complete window (including one ending exactly at the buffer end) with nonzero
RMS contributes `20 * log10(rms)`, only an incomplete trailing window is
discarded, and the result is `max - min` of the dB values, or 0 when fewer
than two windows yield a usable dB value. -/
noncomputable def dynamicRangeSpec
    (self : AudioQualityAnalyzer) (audio : List ℝ) : ℝ :=
  let w := self.window_size
  let db_values :=
    (((List.range (audio.length / w)).map fun k =>
        self.calculate_rms ((audio.drop (k * w)).take w)).filter fun r =>
      decide (0 < r)).map fun r => 20 * Real.logb 10 r
  if db_values.length < 2 then 0 else listMax db_values - listMin db_values

/-! ### Correlation -/

/-- Modelled from the spec: the Pearson product-moment correlation
coefficient computed by the external library routine `scipy.stats.pearsonr`
(not part of this repository).  Only the coefficient component is modelled;
the significance p-value is a distribution-table lookup in the external
library and no claim depends on it. -/
noncomputable def pearsonCoeff (x y : List ℝ) : ℝ :=
  let mx := x.sum / x.length
  let my := y.sum / y.length
  let cov := ((x.zip y).map fun p => (p.1 - mx) * (p.2 - my)).sum
  let sx := (x.map fun a => (a - mx) ^ 2).sum
  let sy := (y.map fun b => (b - my) ^ 2).sum
  cov / Real.sqrt (sx * sy)

/-- `calculate_correlation` (lines 100-108): both buffers are truncated to
the shorter length and handed to the Pearson-correlation routine; no shape
check is made and no error path exists. -/
noncomputable def AudioQualityAnalyzer.calculate_correlation
    (_self : AudioQualityAnalyzer) (audio1 audio2 : List ℝ) : ℝ :=
  let min_len := min audio1.length audio2.length
  pearsonCoeff (audio1.take min_len) (audio2.take min_len)

/-! ### THD+N -/

/-- `np.argmin` on a list of reals: the first index holding the minimum
value (0 on the empty list, which numpy would instead reject). -/
noncomputable def argminList (l : List ℝ) : ℕ :=
  l.indexOf (listMin l)

/-- Bin `k` of `np.fft.fft(audio)`: the full-length discrete Fourier
transform `X_k = sum_j audio[j] * exp(-2*pi*I*j*k/n)`. -/
noncomputable def fftBin (audio : List ℝ) (k : ℕ) : ℂ :=
  ∑ j ∈ Finset.range audio.length,
    (audio.getD j 0 : ℂ) *
      Complex.exp (-(2 * (Real.pi : ℂ) * Complex.I * (j : ℂ) * (k : ℂ)) /
        (audio.length : ℂ))

/-- `magnitude[k] = np.abs(fft)[k]` (line 66). -/
noncomputable def magnitude (audio : List ℝ) (k : ℕ) : ℝ :=
  Complex.abs (fftBin audio k)

/-- Entry `k` of `np.fft.fftfreq(n, 1 / sample_rate)`: the first
`(n - 1) / 2 + 1` entries are `k * sr / n`, the remaining ones
`(k - n) * sr / n`. -/
noncomputable def fftfreq (n : ℕ) (sr : ℝ) (k : ℕ) : ℝ :=
  (if k ≤ (n - 1) / 2 then (k : ℝ) else (k : ℝ) - (n : ℝ)) * (sr / n)

/-- `fundamental_idx = np.argmin(np.abs(freqs - fundamental_freq))`
(line 69). -/
noncomputable def AudioQualityAnalyzer.fundamental_idx
    (self : AudioQualityAnalyzer) (audio : List ℝ) (fundamental_freq : ℝ) :
    ℕ :=
  argminList ((List.range audio.length).map fun k =>
    |fftfreq audio.length (self.sample_rate : ℝ) k - fundamental_freq|)

/-- `fundamental_power = magnitude[fundamental_idx] ** 2` (line 70). -/
noncomputable def AudioQualityAnalyzer.fundamental_power
    (self : AudioQualityAnalyzer) (audio : List ℝ) (fundamental_freq : ℝ) :
    ℝ :=
  magnitude audio (self.fundamental_idx audio fundamental_freq) ^ 2

/-- `total_power = np.sum(magnitude**2)` (line 81). -/
noncomputable def total_power (audio : List ℝ) : ℝ :=
  ∑ k ∈ Finset.range audio.length, magnitude audio k ^ 2

/-- `harmonic_power` (lines 73-78): the squared magnitudes at the bins
nearest harmonics 2 to 5 of the fundamental, for harmonics strictly below
the Nyquist frequency.  The source computes this value but never uses it. -/
noncomputable def AudioQualityAnalyzer.harmonic_power
    (self : AudioQualityAnalyzer) (audio : List ℝ) (fundamental_freq : ℝ) :
    ℝ :=
  ((((List.range 4).map fun j => fundamental_freq * ((j : ℝ) + 2)).filter
      fun hf => decide (hf < (self.sample_rate : ℝ) / 2)).map fun hf =>
    magnitude audio (argminList ((List.range audio.length).map fun k =>
      |fftfreq audio.length (self.sample_rate : ℝ) k - hf|)) ^ 2).sum

/-- `calculate_thd_n` (lines 61-88): `float("inf")` when the fundamental
power is zero, otherwise
`np.sqrt(noise_and_distortion_power / fundamental_power) * 100` where
`noise_and_distortion_power = total_power - fundamental_power` (the computed
`harmonic_power` is not subtracted). -/
noncomputable def AudioQualityAnalyzer.calculate_thd_n
    (self : AudioQualityAnalyzer) (audio : List ℝ)
    (fundamental_freq : ℝ := 440) : FloatOut :=
  let fundamental_power := self.fundamental_power audio fundamental_freq
  let noise_and_distortion_power := total_power audio - fundamental_power
  if fundamental_power = 0 then FloatOut.posInf
  else
    FloatOut.val
      (Real.sqrt (noise_and_distortion_power / fundamental_power) * 100)

/-! ### Frequency response -/

/-- Modelled from the spec: `calculate_frequency_response` (lines 90-98)
wraps `scipy.signal.spectrogram(audio, self.sample_rate, nperseg=1024)`, an
external-library computation that is not part of this repository, and then
averages power across time frames per frequency bin.  Following the spec:
the buffer is analyzed in fixed 1024-sample windows advanced by a fixed
step (the overlap policy is the implementation's consistent choice; the
external routine's default overlap of `nperseg / 8` samples, hence a step of
896, is used here), each full window contributes its squared DFT magnitude
at every one-sided frequency bin `k * sampleRate / 1024` for
`k = 0 .. 512`, those powers are averaged across all windows per bin, and
the result is the parallel pair of equal-length sequences
(frequency bin centers, average power per bin). -/
noncomputable def AudioQualityAnalyzer.calculate_frequency_response
    (self : AudioQualityAnalyzer) (audio : List ℝ) : List ℝ × List ℝ :=
  let nperseg : ℕ := 1024
  let step : ℕ := nperseg - nperseg / 8
  let starts : List ℕ :=
    if audio.length < nperseg then []
    else (List.range ((audio.length - nperseg) / step + 1)).map fun t =>
      t * step
  let freqs := (List.range (nperseg / 2 + 1)).map fun k =>
    (k : ℝ) * (self.sample_rate : ℝ) / nperseg
  let avg_power := (List.range (nperseg / 2 + 1)).map fun k =>
    ((starts.map fun i =>
      magnitude ((audio.drop i).take nperseg) k ^ 2).sum) / starts.length
  (freqs, avg_power)

/-! ### Call-level model for statelessness -/

/-- One invocation of a metric operation, with its in-memory arguments. -/
inductive MetricCall where
  | snr (signal_audio noise_audio : List ℝ)
  | thdN (audio : List ℝ) (fundamental_freq : ℝ)
  | freqResp (audio : List ℝ)
  | corr (audio1 audio2 : List ℝ)
  | rmsOf (audio : List ℝ)
  | peakOf (audio : List ℝ)
  | dynRangeOf (audio : List ℝ)

/-- A metric result: a possibly-infinite level value, a plain real, or a
pair of parallel sequences (the frequency-response output). -/
inductive MetricResult where
  | flt (o : FloatOut)
  | num (r : ℝ)
  | seqPair (p : List ℝ × List ℝ)

/-- Dispatch one metric call on an analyzer, returning the result together
with the analyzer state after the call.  Every method of the class only ever
reads `self.sample_rate` and assigns no attribute, so each branch returns
`self` unchanged. -/
noncomputable def runMetric (self : AudioQualityAnalyzer) :
    MetricCall → MetricResult × AudioQualityAnalyzer
  | .snr s n => (.flt (self.calculate_snr s n), self)
  | .thdN audio f0 => (.flt (self.calculate_thd_n audio f0), self)
  | .freqResp a => (.seqPair (self.calculate_frequency_response a), self)
  | .corr a b => (.num (self.calculate_correlation a b), self)
  | .rmsOf a => (.num (self.calculate_rms a), self)
  | .peakOf a => (.flt (self.calculate_peak_level a), self)
  | .dynRangeOf a => (.num (self.calculate_dynamic_range a), self)

/-- Run a sequence of metric calls, threading the analyzer state. -/
noncomputable def runMetrics (self : AudioQualityAnalyzer) :
    List MetricCall → List MetricResult × AudioQualityAnalyzer
  | [] => ([], self)
  | c :: cs =>
      let r := runMetric self c
      let rest := runMetrics r.2 cs
      (r.1 :: rest.1, rest.2)

/-! ### Claim theorems -/

/-- C7: for every nonempty buffer, `calculate_rms` equals the square root of
the mean of squared sample values; it is always nonnegative, and it equals 0
if and only if every sample is 0. -/
theorem rms_spec (audio : List ℝ) (h : audio ≠ []) :
    theAnalyzer.calculate_rms audio = Real.sqrt (specMeanSquare audio) ∧
    0 ≤ theAnalyzer.calculate_rms audio ∧
    (theAnalyzer.calculate_rms audio = 0 ↔ ∀ x ∈ audio, x = 0) := by
  refine ⟨?_, ?_, ?_⟩
  · unfold AudioQualityAnalyzer.calculate_rms
    rw [meanSq_eq_specMeanSquare]
  · exact Real.sqrt_nonneg _
  · unfold AudioQualityAnalyzer.calculate_rms
    rw [Real.sqrt_eq_zero']
    constructor
    · intro hle
      exact (meanSq_eq_zero_iff audio h).mp (le_antisymm hle (meanSq_nonneg audio))
    · intro hall
      exact le_of_eq ((meanSq_eq_zero_iff audio h).mpr hall)

/-- Witness for C7 at the concrete buffer `[1]`. -/
theorem rms_spec_witness :
    theAnalyzer.calculate_rms [(1 : ℝ)] = Real.sqrt (specMeanSquare [(1 : ℝ)]) ∧
    0 ≤ theAnalyzer.calculate_rms [(1 : ℝ)] ∧
    (theAnalyzer.calculate_rms [(1 : ℝ)] = 0 ↔ ∀ x ∈ [(1 : ℝ)], x = 0) :=
  rms_spec [(1 : ℝ)] (by simp)

/-- C4: for every pair of equal-length buffers (nonempty, per the failure
semantics clause of the spec), `calculate_snr` returns positive infinity when
the noise mean-square power is zero (in particular for an all-zero noise
buffer), and otherwise `10 * log10(signalPower / noisePower)` where each
power is the mean of the squared samples of that buffer. -/
theorem snr_spec (signal_audio noise_audio : List ℝ)
    (hlen : signal_audio.length = noise_audio.length)
    (hn : noise_audio ≠ []) :
    (meanSq noise_audio = 0 →
      theAnalyzer.calculate_snr signal_audio noise_audio = FloatOut.posInf) ∧
    ((∀ x ∈ noise_audio, x = 0) →
      theAnalyzer.calculate_snr signal_audio noise_audio = FloatOut.posInf) ∧
    (meanSq noise_audio ≠ 0 →
      theAnalyzer.calculate_snr signal_audio noise_audio =
        FloatOut.val (10 * Real.logb 10
          (specMeanSquare signal_audio / specMeanSquare noise_audio))) := by
  refine ⟨?_, ?_, ?_⟩
  · intro h0
    unfold AudioQualityAnalyzer.calculate_snr
    exact if_pos h0
  · intro hall
    unfold AudioQualityAnalyzer.calculate_snr
    exact if_pos ((meanSq_eq_zero_iff noise_audio hn).mpr hall)
  · intro hne
    unfold AudioQualityAnalyzer.calculate_snr
    rw [if_neg hne, meanSq_eq_specMeanSquare, meanSq_eq_specMeanSquare]

/-- Witness for C4 at the equal-length pair `[1, 1]`, `[0, 0]`. -/
theorem snr_spec_witness :
    (meanSq [(0 : ℝ), 0] = 0 →
      theAnalyzer.calculate_snr [(1 : ℝ), 1] [(0 : ℝ), 0] = FloatOut.posInf) ∧
    ((∀ x ∈ [(0 : ℝ), 0], x = 0) →
      theAnalyzer.calculate_snr [(1 : ℝ), 1] [(0 : ℝ), 0] = FloatOut.posInf) ∧
    (meanSq [(0 : ℝ), 0] ≠ 0 →
      theAnalyzer.calculate_snr [(1 : ℝ), 1] [(0 : ℝ), 0] =
        FloatOut.val (10 * Real.logb 10
          (specMeanSquare [(1 : ℝ), 1] / specMeanSquare [(0 : ℝ), 0]))) :=
  snr_spec [(1 : ℝ), 1] [(0 : ℝ), 0] (by simp) (by simp)

/-- C1 counterexample: the buffers `[1]` and `[1, 1]` have unequal lengths,
yet `calculate_snr` computes the value 0 for them instead of failing with a
length-mismatch error — no error path exists in the method at all. -/
theorem snr_no_shape_check_counterexample :
    ([(1 : ℝ)].length ≠ [(1 : ℝ), 1].length) ∧
    theAnalyzer.calculate_snr [(1 : ℝ)] [(1 : ℝ), 1] = FloatOut.val 0 := by
  constructor
  · decide
  · have h1 : meanSq [(1 : ℝ)] = 1 := by norm_num [meanSq]
    have h2 : meanSq [(1 : ℝ), 1] = 1 := by norm_num [meanSq]
    unfold AudioQualityAnalyzer.calculate_snr
    rw [h1, h2, if_neg (by norm_num : (1 : ℝ) ≠ 0)]
    norm_num [Real.logb_one]

/-- C1 amended: `calculate_snr` performs no length check; for any two
nonempty buffers, of equal length or not, it returns positive infinity when
the noise mean-square power is zero and otherwise
`10 * log10(signalPower / noisePower)`, each power being the mean of the
squared samples of the corresponding buffer taken independently. -/
theorem snr_no_shape_check (signal_audio noise_audio : List ℝ)
    (hn : noise_audio ≠ []) :
    (meanSq noise_audio = 0 →
      theAnalyzer.calculate_snr signal_audio noise_audio = FloatOut.posInf) ∧
    (meanSq noise_audio ≠ 0 →
      theAnalyzer.calculate_snr signal_audio noise_audio =
        FloatOut.val (10 * Real.logb 10
          (specMeanSquare signal_audio / specMeanSquare noise_audio))) := by
  constructor
  · intro h0
    unfold AudioQualityAnalyzer.calculate_snr
    exact if_pos h0
  · intro hne
    unfold AudioQualityAnalyzer.calculate_snr
    rw [if_neg hne, meanSq_eq_specMeanSquare, meanSq_eq_specMeanSquare]

/-- Witness for the amended C1 at the unequal-length pair `[1]`, `[1, 1]`. -/
theorem snr_no_shape_check_witness :
    (meanSq [(1 : ℝ), 1] = 0 →
      theAnalyzer.calculate_snr [(1 : ℝ)] [(1 : ℝ), 1] = FloatOut.posInf) ∧
    (meanSq [(1 : ℝ), 1] ≠ 0 →
      theAnalyzer.calculate_snr [(1 : ℝ)] [(1 : ℝ), 1] =
        FloatOut.val (10 * Real.logb 10
          (specMeanSquare [(1 : ℝ)] / specMeanSquare [(1 : ℝ), 1]))) :=
  snr_no_shape_check [(1 : ℝ)] [(1 : ℝ), 1] (by simp)

/-- C5: `calculate_correlation` truncates both buffers to the shorter length
(the truncated buffers have equal length `min |a| |b|`), computes the Pearson
coefficient on the truncated pair, and — being a total function — never
raises on a length mismatch; feeding it the already-truncated pair gives the
same result. -/
theorem correlation_truncates (audio1 audio2 : List ℝ) :
    (audio1.take (min audio1.length audio2.length)).length =
      min audio1.length audio2.length ∧
    (audio2.take (min audio1.length audio2.length)).length =
      min audio1.length audio2.length ∧
    theAnalyzer.calculate_correlation audio1 audio2 =
      pearsonCoeff (audio1.take (min audio1.length audio2.length))
        (audio2.take (min audio1.length audio2.length)) ∧
    theAnalyzer.calculate_correlation audio1 audio2 =
      theAnalyzer.calculate_correlation
        (audio1.take (min audio1.length audio2.length))
        (audio2.take (min audio1.length audio2.length)) := by
  have h1 : (audio1.take (min audio1.length audio2.length)).length =
      min audio1.length audio2.length := by
    rw [List.length_take]
    exact min_eq_left (min_le_left _ _)
  have h2 : (audio2.take (min audio1.length audio2.length)).length =
      min audio1.length audio2.length := by
    rw [List.length_take]
    exact min_eq_left (min_le_right _ _)
  refine ⟨h1, h2, rfl, ?_⟩
  unfold AudioQualityAnalyzer.calculate_correlation
  dsimp only
  rw [h1, h2, min_self, List.take_take, List.take_take, min_self]

/-- C8: every metric operation of the engine is deterministic and stateless:
dispatching any call leaves the analyzer configuration unchanged, and in any
sequence of calls each result equals the result of running that same call
alone on the initial analyzer — no cross-call state exists. -/
theorem metrics_stateless (self : AudioQualityAnalyzer)
    (cs : List MetricCall) :
    (∀ c : MetricCall, (runMetric self c).2 = self) ∧
    (runMetrics self cs).2 = self ∧
    (runMetrics self cs).1 = cs.map fun c => (runMetric self c).1 := by
  have hstep : ∀ (a : AudioQualityAnalyzer) (c : MetricCall),
      (runMetric a c).2 = a := by
    intro a c
    cases c <;> rfl
  refine ⟨hstep self, ?_, ?_⟩
  · induction cs with
    | nil => rfl
    | cons c cs ih => simp only [runMetrics, hstep, ih]
  · induction cs with
    | nil => rfl
    | cons c cs ih => simp only [runMetrics, hstep, ih, List.map_cons]

/-- C6: for every nonempty buffer, `calculate_peak_level` is determined by
the maximum absolute sample value `peakAbs` (which is attained by some sample
and bounds every sample); the result is negative infinity if and only if
every sample is zero; otherwise it is `20 * log10(peakAbs)`, which is at
most 0 whenever every sample lies in `[-1, 1]`. -/
theorem peak_level_spec (audio : List ℝ) (h : audio ≠ []) :
    (∃ x ∈ audio, |x| = peakAbs audio) ∧
    (∀ x ∈ audio, |x| ≤ peakAbs audio) ∧
    (theAnalyzer.calculate_peak_level audio = FloatOut.negInf ↔
      ∀ x ∈ audio, x = 0) ∧
    (∀ y, theAnalyzer.calculate_peak_level audio = FloatOut.val y →
      y = 20 * Real.logb 10 (peakAbs audio) ∧
      ((∀ x ∈ audio, -1 ≤ x ∧ x ≤ 1) → y ≤ 0)) := by
  have hmapne : audio.map (fun x => |x|) ≠ [] := fun hc =>
    h (List.map_eq_nil_iff.mp hc)
  have hmem : peakAbs audio ∈ audio.map (fun x => |x|) :=
    listMax_mem _ hmapne
  obtain ⟨x0, hx0, hx0e⟩ := List.mem_map.mp hmem
  have hub : ∀ x ∈ audio, |x| ≤ peakAbs audio := fun x hx =>
    le_listMax _ _ (List.mem_map_of_mem _ hx)
  have hnonneg : 0 ≤ peakAbs audio := hx0e ▸ abs_nonneg x0
  refine ⟨⟨x0, hx0, hx0e⟩, hub, ?_, ?_⟩
  · unfold AudioQualityAnalyzer.calculate_peak_level
    dsimp only
    by_cases hz : peakAbs audio = 0
    · rw [if_pos hz]
      simp only [true_iff]
      intro x hx
      have h1 : |x| ≤ 0 := hz ▸ hub x hx
      exact abs_nonpos_iff.mp h1
    · rw [if_neg hz]
      constructor
      · intro hc
        exact absurd hc (by simp)
      · intro hall
        exact absurd (hx0e ▸ (by rw [hall x0 hx0, abs_zero] :
          |x0| = (0 : ℝ))) hz
  · intro y hy
    unfold AudioQualityAnalyzer.calculate_peak_level at hy
    dsimp only at hy
    by_cases hz : peakAbs audio = 0
    · rw [if_pos hz] at hy
      exact absurd hy (by simp)
    · rw [if_neg hz] at hy
      have hyv : y = 20 * Real.logb 10 (peakAbs audio) := by
        have := FloatOut.val.injEq (20 * Real.logb 10 (peakAbs audio)) y
          ▸ hy
        simpa using hy.symm
      refine ⟨hyv, ?_⟩
      intro hbound
      have hle1 : peakAbs audio ≤ 1 := by
        rw [← hx0e]
        exact abs_le.mpr (hbound x0 hx0)
      have hlogb : Real.logb 10 (peakAbs audio) ≤ 0 :=
        Real.logb_nonpos (by norm_num) hnonneg hle1
      rw [hyv]
      nlinarith

/-- Witness for C6 at the concrete buffer `[1]`. -/
theorem peak_level_spec_witness :
    (∃ x ∈ [(1 : ℝ)], |x| = peakAbs [(1 : ℝ)]) ∧
    (∀ x ∈ [(1 : ℝ)], |x| ≤ peakAbs [(1 : ℝ)]) ∧
    (theAnalyzer.calculate_peak_level [(1 : ℝ)] = FloatOut.negInf ↔
      ∀ x ∈ [(1 : ℝ)], x = 0) ∧
    (∀ y, theAnalyzer.calculate_peak_level [(1 : ℝ)] = FloatOut.val y →
      y = 20 * Real.logb 10 (peakAbs [(1 : ℝ)]) ∧
      ((∀ x ∈ [(1 : ℝ)], -1 ≤ x ∧ x ≤ 1) → y ≤ 0)) :=
  peak_level_spec [(1 : ℝ)] (by simp)

/-- The number of window start indices produced by the dynamic-range loop. -/
theorem rangeStep_length (stop step : ℕ) :
    (rangeStep stop step).length = (stop + step - 1) / step := by
  simp [rangeStep]

/-- A buffer of at most 8820 samples yields at most one window in the
dynamic-range loop, so fewer than two dB values exist and the result is 0. -/
theorem dynamic_range_of_short (audio : List ℝ)
    (h : audio.length ≤ 8820) :
    theAnalyzer.calculate_dynamic_range audio = 0 := by
  have hw : theAnalyzer.window_size = 4410 := rfl
  unfold AudioQualityAnalyzer.calculate_dynamic_range
  dsimp only
  rw [hw]
  split
  · rfl
  · rename_i hcond
    exfalso
    apply hcond
    rw [List.length_map]
    refine lt_of_le_of_lt (List.length_filter_le _ _) ?_
    rw [List.length_map, rangeStep_length]
    rw [Nat.div_lt_iff_lt_mul (by norm_num : 0 < 4410)]
    omega

/-- C9: for every buffer of at most 8820 samples (twice the 4410-sample
100 ms window at the fixed 44100 Hz rate), `calculate_dynamic_range` returns
exactly 0, because its loop processes at most one window and hence fewer
than two dB values ever exist. -/
theorem dynamic_range_short_buffer (audio : List ℝ)
    (h : audio.length ≤ 8820) :
    theAnalyzer.calculate_dynamic_range audio = 0 :=
  dynamic_range_of_short audio h

/-- Witness for C9 at the concrete buffer `[1]`. -/
theorem dynamic_range_short_buffer_witness :
    ([(1 : ℝ)].length ≤ 8820) ∧
    theAnalyzer.calculate_dynamic_range [(1 : ℝ)] = 0 :=
  ⟨by norm_num, dynamic_range_short_buffer [(1 : ℝ)] (by norm_num)⟩

/-- The loop bound `range(0, n - w, w)` of the source produces the same
window count as a spec-style partition of a buffer one sample shorter. -/
theorem windowCount_eq (n w : ℕ) (hw : 0 < w) :
    (n - w + w - 1) / w = (n - 1) / w := by
  rcases le_or_lt w n with hle | hlt
  · have : n - w + w - 1 = n - 1 := by omega
    rw [this]
  · have h1 : n - w = 0 := by omega
    rw [h1]
    rw [Nat.div_eq_of_lt (by omega : 0 + w - 1 < w),
      Nat.div_eq_of_lt (by omega : n - 1 < w)]

/-- A full window that ends strictly before the last sample of a buffer is
unchanged when the last sample is removed. -/
theorem window_dropLast_eq (l : List ℝ) (i w : ℕ)
    (h : i + w ≤ l.length - 1) :
    ((l.dropLast).drop i).take w = (l.drop i).take w := by
  rw [List.dropLast_eq_take, List.drop_take, List.take_take]
  rw [min_eq_left (by omega : w ≤ l.length - 1 - i)]

/-- C2 amended: `calculate_dynamic_range` equals the spec-style
dynamic-range partition applied to the buffer with its final sample removed:
the loop bound `range(0, len(audio) - window_size, window_size)` discards
not only an incomplete trailing window but also a complete window that ends
exactly at the buffer end.  All remaining behavior is as the claim states:
4410-sample windows, windows with nonzero RMS contribute `20·log10(rms)` dB,
and the result is `max - min` of the dB values, or 0 when fewer than two
exist. -/
theorem dynamic_range_eq_spec_dropLast (audio : List ℝ) :
    theAnalyzer.calculate_dynamic_range audio =
      dynamicRangeSpec theAnalyzer audio.dropLast := by
  have hw : theAnalyzer.window_size = 4410 := rfl
  unfold AudioQualityAnalyzer.calculate_dynamic_range dynamicRangeSpec
  dsimp only
  rw [hw]
  have hlen : audio.dropLast.length = audio.length - 1 :=
    List.length_dropLast audio
  rw [hlen]
  have hstarts : rangeStep (audio.length - 4410) 4410 =
      (List.range ((audio.length - 1) / 4410)).map fun k => k * 4410 := by
    unfold rangeStep
    rw [windowCount_eq audio.length 4410 (by norm_num)]
  rw [hstarts, List.map_map]
  have hwin : (List.range ((audio.length - 1) / 4410)).map
      ((fun i => theAnalyzer.calculate_rms ((audio.drop i).take 4410)) ∘
        fun k => k * 4410) =
      (List.range ((audio.length - 1) / 4410)).map
        (fun k =>
          theAnalyzer.calculate_rms ((audio.dropLast.drop (k * 4410)).take 4410)) := by
    apply List.map_congr_left
    intro k hk
    have hk' : k < (audio.length - 1) / 4410 := List.mem_range.mp hk
    have hbound : k * 4410 + 4410 ≤ audio.length - 1 := by
      have h1 : (k + 1) * 4410 ≤ ((audio.length - 1) / 4410) * 4410 :=
        Nat.mul_le_mul_right _ hk'
      have h2 : ((audio.length - 1) / 4410) * 4410 ≤ audio.length - 1 :=
        Nat.div_mul_le_self _ _
      omega
    simp only [Function.comp]
    rw [window_dropLast_eq audio (k * 4410) 4410 hbound]
  rw [hwin]

/-- The mean-square of a constant buffer of `n` copies of `c` is `c ^ 2`. -/
theorem meanSq_replicate (n : ℕ) (hn : n ≠ 0) (c : ℝ) :
    meanSq (List.replicate n c) = c ^ 2 := by
  unfold meanSq
  rw [List.map_replicate, List.sum_replicate, List.length_replicate,
    nsmul_eq_mul]
  exact mul_div_cancel_left₀ _ (Nat.cast_ne_zero.mpr hn)

/-- The RMS of a constant buffer of `n` copies of a nonnegative `c` is `c`. -/
theorem rms_replicate (n : ℕ) (hn : n ≠ 0) (c : ℝ) (hc : 0 ≤ c) :
    theAnalyzer.calculate_rms (List.replicate n c) = c := by
  unfold AudioQualityAnalyzer.calculate_rms
  rw [meanSq_replicate n hn c, Real.sqrt_sq hc]

/-- C2 counterexample: a buffer of exactly two full 4410-sample windows (all
samples 1 in the first window, all samples 2 in the second).  The claimed
behavior — only an incomplete trailing window is discarded, so both complete
windows contribute and the result is `max - min` of their dB values — gives
the nonzero value `20·log10 2`, but `calculate_dynamic_range` processes only
the first window and returns 0. -/
theorem dynamic_range_counterexample :
    theAnalyzer.calculate_dynamic_range
        (List.replicate 4410 (1 : ℝ) ++ List.replicate 4410 2) = 0 ∧
    dynamicRangeSpec theAnalyzer
        (List.replicate 4410 (1 : ℝ) ++ List.replicate 4410 2) ≠ 0 := by
  constructor
  · exact dynamic_range_of_short _ (by
      rw [List.length_append, List.length_replicate, List.length_replicate])
  · have hlen :
        (List.replicate 4410 (1 : ℝ) ++ List.replicate 4410 2).length = 8820 := by
      rw [List.length_append, List.length_replicate, List.length_replicate]
    have hw : theAnalyzer.window_size = 4410 := rfl
    unfold dynamicRangeSpec
    dsimp only
    rw [hw, hlen]
    have hrange : (8820 : ℕ) / 4410 = 2 := by norm_num
    rw [hrange, (by decide : List.range 2 = [0, 1])]
    simp only [List.map_cons, List.map_nil]
    have hw1 :
        ((List.replicate 4410 (1 : ℝ) ++ List.replicate 4410 2).drop (0 * 4410)).take 4410 =
          List.replicate 4410 (1 : ℝ) := by
      rw [Nat.zero_mul, List.drop_zero,
        List.take_left' (List.length_replicate 4410 (1 : ℝ))]
    have hw2 :
        ((List.replicate 4410 (1 : ℝ) ++ List.replicate 4410 2).drop (1 * 4410)).take 4410 =
          List.replicate 4410 (2 : ℝ) := by
      rw [Nat.one_mul,
        List.drop_left' (List.length_replicate 4410 (1 : ℝ)),
        List.take_replicate, min_self]
    rw [hw1, hw2, rms_replicate 4410 (by norm_num) 1 (by norm_num),
      rms_replicate 4410 (by norm_num) 2 (by norm_num)]
    have hfil : ([1, 2] : List ℝ).filter (fun r => decide (0 < r)) = [1, 2] := by
      norm_num [List.filter_cons, List.filter_nil]
    rw [hfil]
    simp only [List.map_cons, List.map_nil, List.length_cons,
      List.length_nil]
    rw [if_neg (by norm_num)]
    have hb : 0 < 20 * Real.logb 10 2 := by
      have := Real.logb_pos (by norm_num : (1 : ℝ) < 10) (by norm_num : (1 : ℝ) < 2)
      linarith
    have ha : 20 * Real.logb 10 (1 : ℝ) = 0 := by
      rw [Real.logb_one]; ring
    rw [ha]
    unfold listMax listMin
    simp only [List.foldl_cons, List.foldl_nil]
    rw [max_eq_right (le_of_lt hb), min_eq_left (le_of_lt hb)]
    linarith

/-! ### argmin lemmas for the fundamental-bin search -/

theorem argminList_lt_length (l : List ℝ) (h : l ≠ []) :
    argminList l < l.length :=
  List.indexOf_lt_length.mpr (listMin_mem l h)

theorem argminList_getD_le (l : List ℝ) (h : l ≠ []) (k : ℕ)
    (hk : k < l.length) :
    l.getD (argminList l) 0 ≤ l.getD k 0 := by
  have hlt : argminList l < l.length := argminList_lt_length l h
  have h1 : l.get ⟨argminList l, hlt⟩ = listMin l := List.indexOf_get hlt
  have h2 : l.getD (argminList l) 0 = listMin l := by
    rw [List.getD_eq_getElem l 0 hlt, ← h1, List.get_eq_getElem]
  rw [h2, List.getD_eq_getElem l 0 hk]
  exact listMin_le l _ (List.getElem_mem hk)

theorem getD_map_range (n : ℕ) (f : ℕ → ℝ) (i : ℕ) (hi : i < n) :
    ((List.range n).map f).getD i 0 = f i := by
  rw [List.getD_eq_getElem _ 0 (by simpa using hi), List.getElem_map,
    List.getElem_range]

theorem argmin_map_range_lt (n : ℕ) (hn : n ≠ 0) (f : ℕ → ℝ) :
    argminList ((List.range n).map f) < n := by
  have hne : (List.range n).map f ≠ [] := by
    intro hc
    have hc' := congrArg List.length hc
    simp at hc'
    omega
  have := argminList_lt_length _ hne
  simpa using this

theorem argmin_map_range_le (n : ℕ) (hn : n ≠ 0) (f : ℕ → ℝ) (k : ℕ)
    (hk : k < n) :
    f (argminList ((List.range n).map f)) ≤ f k := by
  have hne : (List.range n).map f ≠ [] := by
    intro hc
    have hc' := congrArg List.length hc
    simp at hc'
    omega
  have hlt : argminList ((List.range n).map f) < n := argmin_map_range_lt n hn f
  have h1 := argminList_getD_le ((List.range n).map f) hne k (by simpa using hk)
  rw [getD_map_range n f _ hlt, getD_map_range n f k hk] at h1
  exact h1

/-- C3: for every nonempty buffer, `calculate_thd_n` locates the DFT bin
whose `fftfreq` frequency is nearest 440 Hz (a valid index minimizing the
distance over all bins), takes its squared magnitude as the fundamental
power, and returns positive infinity when that power is zero and otherwise
`sqrt((totalPower - fundamentalPower) / fundamentalPower) * 100`, where the
total power is the sum of squared magnitudes over all bins — the computed
harmonic power is never subtracted from the noise-and-distortion term. -/
theorem thd_n_spec (audio : List ℝ) (h : audio ≠ []) :
    theAnalyzer.fundamental_idx audio 440 < audio.length ∧
    (∀ k < audio.length,
      |fftfreq audio.length 44100 (theAnalyzer.fundamental_idx audio 440) - 440| ≤
        |fftfreq audio.length 44100 k - 440|) ∧
    total_power audio =
      ((List.range audio.length).map fun k => magnitude audio k ^ 2).sum ∧
    (theAnalyzer.fundamental_power audio 440 = 0 →
      theAnalyzer.calculate_thd_n audio = FloatOut.posInf) ∧
    (theAnalyzer.fundamental_power audio 440 ≠ 0 →
      theAnalyzer.calculate_thd_n audio =
        FloatOut.val (Real.sqrt
          ((total_power audio - theAnalyzer.fundamental_power audio 440) /
            theAnalyzer.fundamental_power audio 440) * 100)) := by
  have hn : audio.length ≠ 0 := fun hc => h (List.length_eq_zero.mp hc)
  have hsr : ((theAnalyzer.sample_rate : ℕ) : ℝ) = (44100 : ℝ) := by
    norm_num [theAnalyzer]
  refine ⟨?_, ?_, ?_, ?_, ?_⟩
  · unfold AudioQualityAnalyzer.fundamental_idx
    exact argmin_map_range_lt audio.length hn _
  · intro k hk
    have := argmin_map_range_le audio.length hn
      (fun k => |fftfreq audio.length ((theAnalyzer.sample_rate : ℕ) : ℝ) k - 440|)
      k hk
    rw [hsr] at this
    unfold AudioQualityAnalyzer.fundamental_idx
    rw [← hsr]
    exact this
  · rw [sum_map_range]
    rfl
  · intro h0
    unfold AudioQualityAnalyzer.calculate_thd_n
    dsimp only
    rw [if_pos h0]
  · intro hne
    unfold AudioQualityAnalyzer.calculate_thd_n
    dsimp only
    rw [if_neg hne]

/-- Witness for C3 at the concrete buffer `[1]`. -/
theorem thd_n_spec_witness :
    theAnalyzer.fundamental_idx [(1 : ℝ)] 440 < [(1 : ℝ)].length ∧
    (∀ k < [(1 : ℝ)].length,
      |fftfreq [(1 : ℝ)].length 44100 (theAnalyzer.fundamental_idx [(1 : ℝ)] 440) - 440| ≤
        |fftfreq [(1 : ℝ)].length 44100 k - 440|) ∧
    total_power [(1 : ℝ)] =
      ((List.range [(1 : ℝ)].length).map fun k => magnitude [(1 : ℝ)] k ^ 2).sum ∧
    (theAnalyzer.fundamental_power [(1 : ℝ)] 440 = 0 →
      theAnalyzer.calculate_thd_n [(1 : ℝ)] = FloatOut.posInf) ∧
    (theAnalyzer.fundamental_power [(1 : ℝ)] 440 ≠ 0 →
      theAnalyzer.calculate_thd_n [(1 : ℝ)] =
        FloatOut.val (Real.sqrt
          ((total_power [(1 : ℝ)] - theAnalyzer.fundamental_power [(1 : ℝ)] 440) /
            theAnalyzer.fundamental_power [(1 : ℝ)] 440) * 100)) :=
  thd_n_spec [(1 : ℝ)] (by simp)

/-- C10: whenever the fundamental-bin power is nonzero, the argument of the
square root in `calculate_thd_n` is nonnegative — the fundamental power is
one summand of the total power, so it never exceeds it — and the returned
value is a nonnegative finite number. -/
theorem thd_n_nonneg (audio : List ℝ) (h : audio ≠ [])
    (hf : theAnalyzer.fundamental_power audio 440 ≠ 0) :
    theAnalyzer.fundamental_power audio 440 ≤ total_power audio ∧
    0 ≤ (total_power audio - theAnalyzer.fundamental_power audio 440) /
        theAnalyzer.fundamental_power audio 440 ∧
    ∃ r, theAnalyzer.calculate_thd_n audio = FloatOut.val r ∧ 0 ≤ r := by
  have hn : audio.length ≠ 0 := fun hc => h (List.length_eq_zero.mp hc)
  have hidx : theAnalyzer.fundamental_idx audio 440 < audio.length := by
    unfold AudioQualityAnalyzer.fundamental_idx
    exact argmin_map_range_lt audio.length hn _
  have hle : theAnalyzer.fundamental_power audio 440 ≤ total_power audio := by
    unfold AudioQualityAnalyzer.fundamental_power total_power
    exact Finset.single_le_sum (fun i _ => sq_nonneg (magnitude audio i))
      (Finset.mem_range.mpr hidx)
  have hpos : 0 < theAnalyzer.fundamental_power audio 440 :=
    lt_of_le_of_ne (sq_nonneg _) (Ne.symm hf)
  refine ⟨hle, div_nonneg (sub_nonneg.mpr hle) (le_of_lt hpos), ?_⟩
  refine ⟨Real.sqrt
    ((total_power audio - theAnalyzer.fundamental_power audio 440) /
      theAnalyzer.fundamental_power audio 440) * 100, ?_, ?_⟩
  · unfold AudioQualityAnalyzer.calculate_thd_n
    dsimp only
    rw [if_neg hf]
  · exact mul_nonneg (Real.sqrt_nonneg _) (by norm_num)

/-- `np.argmin` on a one-element list is index 0. -/
theorem argminList_singleton (a : ℝ) : argminList [a] = 0 := by
  unfold argminList
  rw [(rfl : listMin [a] = a)]
  exact List.indexOf_cons_self a []

/-- The fundamental-bin power of the one-sample buffer `[1]` is 1. -/
theorem fundamental_power_single :
    theAnalyzer.fundamental_power [(1 : ℝ)] 440 = 1 := by
  have hidx : theAnalyzer.fundamental_idx [(1 : ℝ)] 440 = 0 := by
    unfold AudioQualityAnalyzer.fundamental_idx
    rw [(by rfl : [(1 : ℝ)].length = 1), (by decide : List.range 1 = [0]),
      List.map_cons, List.map_nil]
    exact argminList_singleton _
  unfold AudioQualityAnalyzer.fundamental_power
  rw [hidx]
  have hmag : magnitude [(1 : ℝ)] 0 = 1 := by
    unfold magnitude fftBin
    rw [(by rfl : [(1 : ℝ)].length = 1), Finset.sum_range_one]
    norm_num [Complex.exp_zero]
  rw [hmag]
  norm_num

/-- Witness for C10 at the concrete buffer `[1]`, whose fundamental power
is 1. -/
theorem thd_n_nonneg_witness :
    theAnalyzer.fundamental_power [(1 : ℝ)] 440 ≤ total_power [(1 : ℝ)] ∧
    0 ≤ (total_power [(1 : ℝ)] - theAnalyzer.fundamental_power [(1 : ℝ)] 440) /
        theAnalyzer.fundamental_power [(1 : ℝ)] 440 ∧
    ∃ r, theAnalyzer.calculate_thd_n [(1 : ℝ)] = FloatOut.val r ∧ 0 ≤ r :=
  thd_n_nonneg [(1 : ℝ)] (by simp)
    (by rw [fundamental_power_single]; norm_num)

end QualityComparison
